import Mathlib

/-!
# Verification of the ForgeKeeper import/merge pipeline

Shallow embedding of the core logic of the repository:

* `scripts/security_utils.py` — `mask_value`
* `scripts/config_merger.py` — `merge_config`
* `scripts/devcontainer_mapper.py` — `DevcontainerMapper.map_features`,
  `DevcontainerMapper.detect_language_from_image`
* `scripts/devcontainer_parser.py` — `DevcontainerParser.parse_content`,
  `validate_schema` / `_basic_validation`, and the extraction helpers.

Python dictionaries are embedded as association lists in insertion order
(Python dicts preserve insertion order and have unique keys; theorems that
need key uniqueness take it as a `Nodup` hypothesis).  Python strings are
Lean `String`s; `len`, slicing and per-character operations act on the
underlying character list (`String.data`), matching Python's code-point
view of strings.
-/

namespace ForgeKeeper

/-- Python's whitespace set for `str.strip()` / `int()` (ASCII portion). -/
def isPySpace (c : Char) : Bool :=
  c = ' ' ∨ c = '\t' ∨ c = '\n' ∨ c = '\r' ∨ c = '\x0b' ∨ c = '\x0c'

/-- `str.strip()` on the character list: drop whitespace from both ends. -/
def pyStripL (cs : List Char) : List Char :=
  ((cs.dropWhile isPySpace).reverse.dropWhile isPySpace).reverse

/-- `str.strip()`. -/
def pyStrip (s : String) : String :=
  ⟨pyStripL s.data⟩

/-- `str.lower()` (ASCII behaviour, which is all the pipeline's inputs use). -/
def pyLower (s : String) : String :=
  ⟨s.data.map Char.toLower⟩

/-- `s.split(sep)[0]` for a single-character separator: everything before
the first occurrence of `sep` (the whole string when `sep` is absent). -/
def takeBeforeChar (sep : Char) (cs : List Char) : List Char :=
  cs.takeWhile (fun c => c ≠ sep)

/-- `str.split(sep)` for a single-character separator.  Always returns at
least one (possibly empty) piece; adjacent separators yield empty pieces,
exactly as in Python. -/
def splitOnChar (sep : Char) : List Char → List (List Char)
  | [] => [[]]
  | c :: rest =>
      match splitOnChar sep rest with
      | [] => if c = sep then [[], []] else [[c]]
      | h :: t => if c = sep then [] :: h :: t else (c :: h) :: t

/-- `str.startswith(pat)`. -/
def pyStartsWith (pat s : String) : Bool :=
  pat.data.isPrefixOf s.data

/-- A JSON-like value, covering every Python value the pipeline stores in
its dict-based payloads: the result of `json.loads` plus the plain values
the merger passes through.  `fnum` carries the literal text of a
non-integral JSON number; the pipeline never inspects such values (they
fail every `isinstance(·, int)`/`isinstance(·, str)` test). -/
inductive Json where
  | null : Json
  | bool (b : Bool) : Json
  | num (n : Int) : Json
  | fnum (lit : String) : Json
  | str (s : String) : Json
  | arr (elems : List Json) : Json
  | obj (fields : List (String × Json)) : Json

/-- Python `d[k]`/`k in d` for a dict embedded as an association list:
the (unique) entry with key `k`, if any. -/
def jget (d : List (String × Json)) (k : String) : Option Json :=
  (d.find? (fun p => p.1 == k)).map (fun p => p.2)

/-- Python `d[k]` for a `dict[str, str]` embedded as an association list. -/
def dictGetS (d : List (String × String)) (k : String) : Option String :=
  (d.find? (fun p => p.1 == k)).map (fun p => p.2)

/-- Python `d[k] = v` on a `dict[str, str]`: overwrite the value of an
existing key in place, otherwise append the new binding. -/
def dictSet (d : List (String × String)) (k v : String) : List (String × String) :=
  match d with
  | [] => [(k, v)]
  | p :: rest => if p.1 = k then (k, v) :: rest else p :: dictSet rest k v

/-- The `for x in xs: if x not in seen: seen.add(x); out.append(x)` idiom
used by `merge_config` for ports and by `detect_language_from_image` for
languages: keep the first occurrence of each element, tracking a `seen`
set (embedded as a list used only through membership). -/
def pyDedupAux {α : Type} [DecidableEq α] : List α → List α → List α
  | [], _ => []
  | a :: rest, seen =>
      if a ∈ seen then pyDedupAux rest seen
      else a :: pyDedupAux rest (a :: seen)

/-- Specification-side description of the same operation, written from the
spec's words: keep each value's first occurrence, dropping every later
duplicate. Compared with the source-derived `pyDedupAux` in the theorems. -/
def firstOccurrences {α : Type} [DecidableEq α] : List α → List α
  | [] => []
  | a :: rest => a :: firstOccurrences (rest.filter (fun x => x ≠ a))
termination_by l => l.length
decreasing_by
  simp only [List.length_cons]
  exact Nat.lt_succ_of_le (List.length_filter_le _ _)

/-! ## security_utils.py -/

/-- `security_utils.mask_value`: values of 4 or fewer characters are fully
masked to `***`; longer values show the first two (`value[:2]`) and last
two (`value[-2:]`) characters around `***`. -/
def mask_value (value : String) : String :=
  if value.length ≤ 4 then "***"
  else ⟨value.data.take 2 ++ "***".data ++ value.data.drop (value.data.length - 2)⟩

/-! ## config_merger.py -/

/-- The conflict warning emitted by `merge_config` (f-string at
`config_merger.py:41-44`). -/
def envConflictWarning (key value importedValue : String) : String :=
  "Environment variable '" ++ key ++ "' conflict: keeping user value '" ++ value ++
    "' over imported value '" ++ importedValue ++ "'"

/-- `merged_env[key] = value` — the dict-insertion step shared by both
loops of the env-var phase. -/
def envStep (m : List (String × String)) (kv : String × String) :
    List (String × String) :=
  dictSet m kv.1 kv.2

/-- One iteration of the user loop of the env-var phase
(`config_merger.py:39-45`): record a conflict warning when the key exists
in the imported dict with a different value, then set the user's value. -/
def mergeEnvStep (imported_env : List (String × String))
    (st : List (String × String) × List String) (kv : String × String) :
    List (String × String) × List String :=
  let ws :=
    match dictGetS imported_env kv.1 with
    | some w => if w ≠ kv.2 then st.2 ++ [envConflictWarning kv.1 kv.2 w] else st.2
    | none => st.2
  (dictSet st.1 kv.1 kv.2, ws)

/-- The env-var phase of `merge_config` (`config_merger.py:28-47`): start
from the imported env vars (inserted pairwise into an empty dict), then
layer the user env vars on top via `mergeEnvStep`.  Returns the merged
dict and the warnings list. -/
def merge_env (user_env imported_env : List (String × String)) :
    List (String × String) × List String :=
  user_env.foldl (mergeEnvStep imported_env) (imported_env.foldl envStep [], [])

/-- Python's `<=` on strings: lexicographic comparison by code point. -/
def charListLe : List Char → List Char → Bool
  | [], _ => true
  | _ :: _, [] => false
  | a :: as, b :: bs => if a < b then true else if a = b then charListLe as bs else false

/-- Python's `s1 <= s2` (the order used by `sorted`), as a proposition. -/
def pyLe (a b : String) : Prop :=
  charListLe a.data b.data = true

instance : DecidableRel pyLe :=
  fun a b => inferInstanceAs (Decidable (charListLe a.data b.data = true))

/-- The language phase (`config_merger.py:49-52`): `sorted(set(u) | set(i))`.
A Python set union followed by `sorted` yields each distinct element once,
in ascending lexicographic order; this is realized as sorting the
deduplicated concatenation (extensionally identical: same elements, no
duplicates, sorted ascending). -/
def merge_languages (u i : List String) : List String :=
  List.insertionSort pyLe (pyDedupAux (u ++ i) [])

/-- The port phase (`config_merger.py:54-63`): iterate user ports then
imported ports, appending each value only the first time it is seen. -/
def merge_ports (u i : List Int) : List Int :=
  pyDedupAux (u ++ i) []

/-- A top-level configuration dict as `merge_config` consumes it: the three
typed keys the merger handles specially (`.get` with an empty default, so
an absent key and an empty value are indistinguishable, exactly as in the
source) plus every other top-level binding in insertion order. -/
structure MergeInput where
  env_vars : List (String × String) := []
  languages : List String := []
  ports : List Int := []
  extra : List (String × Json) := []

/-- `merge_config`'s result dict, with the specially-handled keys as typed
fields, the pass-through bindings (`config_merger.py:65-74`) in `extra`,
and the computed `warnings` list (`config_merger.py:76`). -/
structure MergedOut where
  env_vars : List (String × String)
  languages : List String
  ports : List Int
  extra : List (String × Json)
  warnings : List String

/-- The keys handled specially by the merger (`config_merger.py:66`). -/
def handledKeys : List String := ["env_vars", "languages", "ports"]

/-- `config_merger.merge_config`.  Pass-through: every user binding whose
key is not handled is copied in (`config_merger.py:67-69`); then every
imported binding whose key is neither handled nor already present —
i.e. not among the user's copied keys — is copied in
(`config_merger.py:72-74`). -/
def merge_config (user imported : MergeInput) : MergedOut :=
  let ew := merge_env user.env_vars imported.env_vars
  let userExtra := user.extra.filter (fun p => !(handledKeys.contains p.1))
  let impExtra := imported.extra.filter
    (fun p => !(handledKeys.contains p.1) && !(userExtra.any (fun q => q.1 == p.1)))
  { env_vars := ew.1
    languages := merge_languages user.languages imported.languages
    ports := merge_ports user.ports imported.ports
    extra := userExtra ++ impExtra
    warnings := ew.2 }

/-- Lookup in the final merged dict.  The key `"warnings"` always maps to
the computed warnings list, because `merged['warnings'] = warnings` runs
last (`config_merger.py:76`) and overwrites any pass-through binding of
that name; the three handled keys are always present
(`config_merger.py:47,52,63`); every other key is served by the
pass-through bindings. -/
def MergedOut.getKey (m : MergedOut) (k : String) : Option Json :=
  if k = "warnings" then some (.arr (m.warnings.map .str))
  else if k = "env_vars" then some (.obj (m.env_vars.map (fun p => (p.1, Json.str p.2))))
  else if k = "languages" then some (.arr (m.languages.map .str))
  else if k = "ports" then some (.arr (m.ports.map .num))
  else (m.extra.find? (fun p => p.1 == k)).map (fun p => p.2)

/-! ## devcontainer_mapper.py -/

/-- `DevcontainerMapper.FEATURE_MAPPINGS` in source (dict) order: runtime
language id → feature-id prefixes indicating that language. -/
def FEATURE_MAPPINGS : List (String × List String) :=
  [ ("python", ["ghcr.io/devcontainers/features/python",
                "ghcr.io/devcontainers-contrib/features/python"])
  , ("node",   ["ghcr.io/devcontainers/features/node",
                "ghcr.io/devcontainers-contrib/features/node"])
  , ("go",     ["ghcr.io/devcontainers/features/go",
                "ghcr.io/devcontainers-contrib/features/go"])
  , ("rust",   ["ghcr.io/devcontainers/features/rust",
                "ghcr.io/devcontainers-contrib/features/rust"])
  , ("java",   ["ghcr.io/devcontainers/features/java",
                "ghcr.io/devcontainers-contrib/features/java"])
  , ("dotnet", ["ghcr.io/devcontainers/features/dotnet",
                "ghcr.io/microsoft/devcontainers/features/dotnet"])
  , ("ruby",   ["ghcr.io/devcontainers/features/ruby",
                "ghcr.io/devcontainers-contrib/features/ruby"])
  , ("php",    ["ghcr.io/devcontainers/features/php",
                "ghcr.io/devcontainers-contrib/features/php"]) ]

/-- The nested matching loops of `map_features`
(`devcontainer_mapper.py:81-88`): the first language, in table order, one
of whose prefixes the feature id starts with (`str.startswith`). -/
def matchFeature (feature_id : String) : Option String :=
  (FEATURE_MAPPINGS.find? (fun lp => lp.2.any (fun pat => pyStartsWith pat feature_id))).map
    (fun lp => lp.1)

/-- `dataclass MappingResult`.  The source realizes `languages` as a Python
set; the embedding realizes it as a duplicate-free list in insertion order
(set semantics up to membership, which is all the pipeline uses). -/
structure MappingResult where
  languages : List String := []
  env_vars : List (String × String) := []
  ports : List Int := []
  unrecognized_features : List String := []
  warnings : List String := []

/-- `result.languages.add(lang)` — set insertion. -/
def addLang (ls : List String) (l : String) : List String :=
  if l ∈ ls then ls else ls ++ [l]

/-- The warning emitted for an unmatched feature
(`devcontainer_mapper.py:91-93`). -/
def featureWarning (feature_id : String) : String :=
  "Feature '" ++ feature_id ++ "' not mapped to any ForgeKeeper language runtime"

/-- The keyword table of `detect_language_from_image`
(`devcontainer_mapper.py:123-135`). -/
def IMAGE_LANGUAGE_KEYWORDS : List (String × String) :=
  [ ("python", "python"), ("node", "node"), ("golang", "go"), ("go", "go")
  , ("rust", "rust"), ("java", "java"), ("dotnet", "dotnet"), ("ruby", "ruby")
  , ("php", "php"), ("swift", "swift"), ("dart", "dart") ]

/-- Dict lookup `IMAGE_LANGUAGE_KEYWORDS[part]` (as an `Option`). -/
def keywordLookup (w : String) : Option String :=
  (IMAGE_LANGUAGE_KEYWORDS.find? (fun p => p.1 == w)).map (fun p => p.2)

/-- The word list scanned by `detect_language_from_image`
(`devcontainer_mapper.py:141-154`): lowercase and strip the image, drop
everything after the first `@` (`split('@')[0]`) and then after the first
`:` in the remainder (`split(':')[0]`), split the remaining path on `/`
into segments, and split each segment on `-`/`_` (via
`segment.replace('_', '-').split('-')`). -/
def imageWords (image : String) : List String :=
  let image_lower := pyStripL ((pyLower image).data)
  let image_path := takeBeforeChar ':' (takeBeforeChar '@' image_lower)
  let segments := splitOnChar '/' image_path
  (segments.flatMap (fun seg =>
    splitOnChar '-' (seg.map (fun c => if c = '_' then '-' else c)))).map
      (fun w => (⟨w⟩ : String))

/-- One iteration of the word scan in `detect_language_from_image`
(`devcontainer_mapper.py:151-160`): look the word up in the keyword table
and, on a hit, record the language id unless already seen.  The state is
the `seen` set (as a list used through membership) paired with the
`detected` list. -/
def detectStep (st : List String × List String) (w : String) :
    List String × List String :=
  match keywordLookup w with
  | some l => if l ∈ st.1 then st else (l :: st.1, st.2 ++ [l])
  | none => st

/-- `DevcontainerMapper.detect_language_from_image`
(`devcontainer_mapper.py:108-162`): empty/whitespace-only images yield no
languages (`if not image or not image.strip()`); otherwise the words of
the normalized image path are scanned through `detectStep` and the
detected language ids are returned in first-seen order. -/
def detect_language_from_image (image : String) : List String :=
  if pyStrip image = "" then []
  else ((imageWords image).foldl detectStep ([], [])).2

/-- The parsed devcontainer configuration (`dataclass DevcontainerConfig`). -/
structure DevcontainerConfig where
  features : List (String × Json) := []
  customizations : List (String × Json) := []
  forward_ports : List Int := []
  remote_env : List (String × String) := []
  image : Option String := none
  dockerfile : Option String := none
  raw : List (String × Json) := []

/-- One iteration of the feature loop in `map_features`
(`devcontainer_mapper.py:79-93`): add the first matching language to the
language set, or record the feature id as unrecognized together with its
warning. -/
def featureStep (r : MappingResult) (fkv : String × Json) : MappingResult :=
  match matchFeature fkv.1 with
  | some lang => { r with languages := addLang r.languages lang }
  | none =>
      { r with
        unrecognized_features := r.unrecognized_features ++ [fkv.1]
        warnings := r.warnings ++ [featureWarning fkv.1] }

/-- `DevcontainerMapper.map_features` (`devcontainer_mapper.py:66-106`):
iterate the feature ids (dict keys) through `featureStep`; then, if
`config.image` is truthy (present and non-empty), add every language
detected from the image; finally copy the env vars and ports. -/
def map_features (config : DevcontainerConfig) : MappingResult :=
  let afterFeatures : MappingResult := config.features.foldl featureStep {}
  let afterImage : MappingResult :=
    match config.image with
    | some img =>
        if img = "" then afterFeatures
        else
          { afterFeatures with
            languages := (detect_language_from_image img).foldl addLang afterFeatures.languages }
    | none => afterFeatures
  { afterImage with env_vars := config.remote_env, ports := config.forward_ports }

/-! ## devcontainer_parser.py -/

/-- Python `int(s)` on a string: after stripping surrounding whitespace
and an optional sign, a nonempty digit run in which single underscores may
separate digits.  `pyDigitRun cs afterDigit` accepts the run `cs`, where
`afterDigit` records whether the previous character was a digit (an
underscore is only legal directly after a digit and must be followed by a
digit; the run must end in a digit). -/
def pyDigitRun : List Char → Bool → Option (List Char)
  | [], afterDigit => if afterDigit then some [] else none
  | c :: rest, afterDigit =>
      if c.isDigit then (pyDigitRun rest true).map (fun ds => c :: ds)
      else if c = '_' ∧ afterDigit then pyDigitRun rest false
      else none

/-- Value of an ASCII digit list. -/
def digitsVal (ds : List Char) : Nat :=
  ds.foldl (fun n c => 10 * n + (c.toNat - '0'.toNat)) 0

/-- Python `int(s)`: `some n` when the conversion succeeds, `none` when it
raises `ValueError`. -/
def pyIntOfString (s : String) : Option Int :=
  match pyStripL s.data with
  | '+' :: rest => (pyDigitRun rest false).map (fun ds => (digitsVal ds : Int))
  | '-' :: rest => (pyDigitRun rest false).map (fun ds => -(digitsVal ds : Int))
  | rest => (pyDigitRun rest false).map (fun ds => (digitsVal ds : Int))

/-- What one `forwardPorts` entry contributes in
`DevcontainerParser._extract_ports` (`devcontainer_parser.py:342-351`): a
string is first converted via `int(...)` (a `ValueError` skips the
entry); anything that is then an `int` is kept.  Python `bool` is a
subclass of `int`, so boolean entries pass the `isinstance(port, int)`
test and are kept as `1`/`0`; floats, `null`, arrays and objects are
skipped. -/
def portOfEntry : Json → Option Int
  | .num n => some n
  | .bool b => some (if b then 1 else 0)
  | .str s => pyIntOfString s
  | _ => none

/-- `DevcontainerParser._extract_ports` (`devcontainer_parser.py:331-352`). -/
def extract_ports (ports_data : List Json) : List Int :=
  ports_data.filterMap portOfEntry

/-- `DevcontainerParser._extract_features` (`devcontainer_parser.py:265-278`):
the `features` value if it is a dict, else an empty dict. -/
def extract_features (data : List (String × Json)) : List (String × Json) :=
  match jget data "features" with
  | some (.obj o) => o
  | _ => []

/-- `DevcontainerParser._extract_customizations`
(`devcontainer_parser.py:280-293`). -/
def extract_customizations (data : List (String × Json)) : List (String × Json) :=
  match jget data "customizations" with
  | some (.obj o) => o
  | _ => []

/-- `DevcontainerParser._extract_env` (`devcontainer_parser.py:295-309`):
the `remoteEnv` dict filtered to its string-valued entries. -/
def extract_env (data : List (String × Json)) : List (String × String) :=
  match jget data "remoteEnv" with
  | some (.obj o) => o.filterMap (fun p =>
      match p.2 with
      | .str s => some (p.1, s)
      | _ => none)
  | _ => []

/-- `DevcontainerParser._extract_image_config`
(`devcontainer_parser.py:311-329`): `image`/`dockerfile` only when their
raw values are strings. -/
def extract_image_config (data : List (String × Json)) : Option String × Option String :=
  ( match jget data "image" with
    | some (.str s) => some s
    | _ => none
  , match jget data "dockerfile" with
    | some (.str s) => some s
    | _ => none )

/-- `k in data and not isinstance(data[k], dict)` — the property is
present with a non-object value. -/
def violatesObjProp (data : List (String × Json)) (k : String) : Bool :=
  match jget data k with
  | some (.obj _) => false
  | none => false
  | some _ => true

/-- `k in data and not isinstance(data[k], list)`. -/
def violatesArrProp (data : List (String × Json)) (k : String) : Bool :=
  match jget data k with
  | some (.arr _) => false
  | none => false
  | some _ => true

/-- `k in data and not isinstance(data[k], str)`. -/
def violatesStrProp (data : List (String × Json)) (k : String) : Bool :=
  match jget data k with
  | some (.str _) => false
  | none => false
  | some _ => true

/-- `DevcontainerParser._basic_validation` (`devcontainer_parser.py:224-264`):
the six type checks on known top-level properties, appended in source
order — one error string per violated check. -/
def basic_validation (data : List (String × Json)) : List String :=
  (if violatesObjProp data "features" then
    ["Property 'features' must be an object"] else []) ++
  (if violatesObjProp data "customizations" then
    ["Property 'customizations' must be an object"] else []) ++
  (if violatesArrProp data "forwardPorts" then
    ["Property 'forwardPorts' must be an array"] else []) ++
  (if violatesObjProp data "remoteEnv" then
    ["Property 'remoteEnv' must be an object"] else []) ++
  (if violatesStrProp data "image" then
    ["Property 'image' must be a string"] else []) ++
  (if violatesStrProp data "dockerfile" then
    ["Property 'dockerfile' must be a string"] else [])

/-- `dataclass ParseResult`. -/
structure ParseResult where
  success : Bool
  config : Option DevcontainerConfig := none
  errors : List String := []

/-- The data carried by Python's `json.JSONDecodeError`: the underlying
message and the (1-based) line and column of the failure point. -/
structure JsonDecodeErr where
  msg : String
  lineno : Nat
  colno : Nat

/-- The error message built at `devcontainer_parser.py:154`. -/
def jsonDecodeErrMsg (e : JsonDecodeErr) : String :=
  "Invalid JSON syntax at line " ++ toString e.lineno ++ ", column " ++
    toString e.colno ++ ": " ++ e.msg

/-- `DevcontainerParser.parse_content` (`devcontainer_parser.py:137-194`),
factored over the outcome of `json.loads` (the standard library's JSON
decoder is external to the repository; the function is embedded over its
result).  A decode error becomes the single `Invalid JSON syntax …`
failure; a non-object root becomes the `root must be an object` failure;
otherwise schema validation runs, any violations are returned as a
failure, and on success the configuration is extracted field by field.
This embeds the fallback-validation branch (`_basic_validation`), active
when the optional `jsonschema` library is absent.  Since validation
rejects a non-array `forwardPorts`, the extraction of ports only ever sees
an array (or an absent key, defaulted to `[]`). -/
def parse_content (decoded : Except JsonDecodeErr Json) : ParseResult :=
  match decoded with
  | .error e => { success := false, config := none, errors := [jsonDecodeErrMsg e] }
  | .ok (.obj data) =>
      let schema_errors := basic_validation data
      if schema_errors.isEmpty then
        { success := true
          config := some
            { features := extract_features data
              customizations := extract_customizations data
              forward_ports := extract_ports
                (match jget data "forwardPorts" with
                 | some (.arr l) => l
                 | _ => [])
              remote_env := extract_env data
              image := (extract_image_config data).1
              dockerfile := (extract_image_config data).2
              raw := data }
          errors := [] }
      else { success := false, config := none, errors := schema_errors }
  | .ok _ =>
      { success := false, config := none
        errors := ["Invalid devcontainer.json: root must be an object"] }

/-- The type a known top-level property must have according to
`DEVCONTAINER_SCHEMA` (`devcontainer_parser.py:47-85`). -/
inductive SchemaTy where
  | sObj : SchemaTy
  | sStr : SchemaTy
  | sBool : SchemaTy
  | sArr : SchemaTy

/-- The top-level `properties` table of `DEVCONTAINER_SCHEMA`. -/
def schemaTypeOf (k : String) : Option SchemaTy :=
  if k = "name" ∨ k = "image" ∨ k = "dockerfile" ∨ k = "remoteUser" ∨
     k = "containerUser" ∨ k = "shutdownAction" ∨ k = "workspaceFolder" ∨
     k = "workspaceMount" then some .sStr
  else if k = "build" ∨ k = "features" ∨ k = "customizations" ∨
          k = "remoteEnv" ∨ k = "containerEnv" then some .sObj
  else if k = "forwardPorts" ∨ k = "mounts" ∨ k = "runArgs" then some .sArr
  else if k = "updateRemoteUserUID" ∨ k = "overrideCommand" then some .sBool
  else none

/-- Whether a value has the schema-declared top-level type.  (In the
`jsonschema` library, as in JSON Schema, a boolean is not an integer and
not vice versa.) -/
def matchesSchemaTy : Json → SchemaTy → Bool
  | .obj _, .sObj => true
  | .str _, .sStr => true
  | .bool _, .sBool => true
  | .arr _, .sArr => true
  | _, _ => false

/-- Modelled from the spec: the `jsonschema`-backed branch of
`validate_schema` (`devcontainer_parser.py:209-217`), used when the
optional `jsonschema` library is importable.  That library's `validate`
raises a `ValidationError` describing the *first* violation it finds, and
the repository's single `except` clause formats exactly one error string
from it (`Schema validation failed at '<path>': <message>`).  The library
itself is external code: it is modelled here as reporting the first
top-level type violation in instance order, which is all the analysis
relies on (one violation reported, the rest silently dropped). -/
def validate_schema_jsonschema (data : List (String × Json)) : List String :=
  match data.find? (fun p =>
      match schemaTypeOf p.1 with
      | some ty => !(matchesSchemaTy p.2 ty)
      | none => false) with
  | some p => ["Schema validation failed at '" ++ p.1 ++ "': value has the wrong type"]
  | none => []

/-- `parse_content` in an environment where `jsonschema` is importable:
identical to `parse_content` except that schema validation is delegated to
the library. -/
def parse_content_js (decoded : Except JsonDecodeErr Json) : ParseResult :=
  match decoded with
  | .error e => { success := false, config := none, errors := [jsonDecodeErrMsg e] }
  | .ok (.obj data) =>
      let schema_errors := validate_schema_jsonschema data
      if schema_errors.isEmpty then
        { success := true
          config := some
            { features := extract_features data
              customizations := extract_customizations data
              forward_ports := extract_ports
                (match jget data "forwardPorts" with
                 | some (.arr l) => l
                 | _ => [])
              remote_env := extract_env data
              image := (extract_image_config data).1
              dockerfile := (extract_image_config data).2
              raw := data }
          errors := [] }
      else { success := false, config := none, errors := schema_errors }
  | .ok _ =>
      { success := false, config := none
        errors := ["Invalid devcontainer.json: root must be an object"] }

/-! ## Concrete inputs and specification-side predicates -/

/-- A value that is already in fully-masked form: the literal `***`, or a
seven-character string whose middle three characters are `***`.  These are
exactly the fixed points of `mask_value`. -/
def maskedShape (v : String) : Prop :=
  v = "***" ∨ (v.length = 7 ∧ (v.data.drop 2).take 3 = ['*', '*', '*'])

instance (v : String) : Decidable (maskedShape v) := by
  unfold maskedShape
  infer_instance

/-- Concrete user-side configuration for the C1 witness. -/
def c1User : MergeInput :=
  { env_vars := [("SHARED", "user_val"), ("ONLY_U", "1"), ("SAME", "s")] }

/-- Concrete imported-side configuration for the C1 witness. -/
def c1Imported : MergeInput :=
  { env_vars := [("SHARED", "imported_val"), ("ONLY_I", "2"), ("SAME", "s")] }

/-- Concrete user configuration whose pass-through key is literally
`warnings`. -/
def c3User : MergeInput := { extra := [("warnings", Json.str "x")] }

/-- Concrete inputs for the C3 witness: a key bound on both sides (user
wins) and a key bound only on the imported side. -/
def c3User2 : MergeInput := { extra := [("name", Json.str "proj")] }

/-- Imported side of the C3 witness. -/
def c3Imported2 : MergeInput :=
  { extra := [("name", Json.str "other"), ("zz", Json.num 1)] }

/-- A decoded mapping violating two known properties at once: `features`
is not a mapping and `forwardPorts` is not a sequence. -/
def c4Bad : List (String × Json) :=
  [("features", Json.num 1), ("forwardPorts", Json.num 2)]

/-- Concrete descriptor for the C5 witness: two recognized features and
one unrecognized one (the spec's concrete scenarios 1 and 3 combined). -/
def c5Config : DevcontainerConfig :=
  { features := [("ghcr.io/devcontainers/features/python:1", Json.obj [])
               , ("ghcr.io/devcontainers/features/docker-in-docker:2", Json.obj [])
               , ("ghcr.io/devcontainers/features/node:1", Json.obj [])] }

/-- Concrete user configuration for the C10 witness: an unsorted language
list with a duplicate and a duplicated port. -/
def c10User : MergeInput :=
  { env_vars := [("A", "1"), ("B", "2")]
    languages := ["python", "go", "python"]
    ports := [8080, 3000, 8080] }

/-! ## Helper lemmas: dictionaries -/

/-- What one user env-var entry contributes to the merge warnings
(`config_merger.py:39-44`), as a standalone function used to characterize
`merge_env`'s warning list. -/
def envWarnOf (imported_env : List (String × String)) (kv : String × String) :
    Option String :=
  match dictGetS imported_env kv.1 with
  | some w => if w ≠ kv.2 then some (envConflictWarning kv.1 kv.2 w) else none
  | none => none

theorem dictGetS_nil (k : String) : dictGetS [] k = none := rfl

theorem dictGetS_cons (p : String × String) (rest : List (String × String)) (k : String) :
    dictGetS (p :: rest) k = if p.1 = k then some p.2 else dictGetS rest k := by
  by_cases h : p.1 = k
  · simp [dictGetS, List.find?_cons_of_pos, h]
  · have h' : (p.1 == k) = false := by simpa using h
    simp [dictGetS, List.find?_cons_of_neg, h, h']

theorem dictGetS_dictSet (d : List (String × String)) (k v k' : String) :
    dictGetS (dictSet d k v) k' = if k' = k then some v else dictGetS d k' := by
  induction d with
  | nil =>
      rw [dictSet, dictGetS_cons]
      by_cases h : k' = k
      · rw [if_pos h.symm, if_pos h]
      · rw [if_neg (fun hh : k = k' => h hh.symm), if_neg h]
  | cons p rest ih =>
      rw [dictSet]
      by_cases hpk : p.1 = k
      · rw [if_pos hpk, dictGetS_cons, dictGetS_cons]
        by_cases h : k' = k
        · rw [if_pos h.symm, if_pos h]
        · rw [if_neg (fun hh : k = k' => h hh.symm), if_neg h,
            if_neg (fun hh : p.1 = k' => h ((hpk.symm.trans hh).symm))]
      · rw [if_neg hpk, dictGetS_cons, dictGetS_cons, ih]
        by_cases h : k' = k
        · rw [if_neg (fun hh : p.1 = k' => hpk (hh.trans h)), if_pos h, if_pos h]
        · simp only [if_neg h]

theorem dictGetS_eq_none_of_not_mem (d : List (String × String)) (k : String)
    (h : k ∉ d.map Prod.fst) : dictGetS d k = none := by
  induction d with
  | nil => rfl
  | cons p rest ih =>
      simp only [List.map_cons, List.mem_cons, not_or] at h
      rw [dictGetS_cons, if_neg (fun hh : p.1 = k => h.1 hh.symm)]
      exact ih h.2

theorem getS_foldl_none (l : List (String × String)) :
    ∀ (m0 : List (String × String)) (k : String), dictGetS l k = none →
      dictGetS (l.foldl envStep m0) k = dictGetS m0 k := by
  induction l with
  | nil => intro m0 k _; rfl
  | cons p rest ih =>
      intro m0 k h
      rw [dictGetS_cons] at h
      by_cases hk : p.1 = k
      · rw [if_pos hk] at h; cases h
      · rw [if_neg hk] at h
        simp only [List.foldl_cons]
        rw [ih _ k h]
        simp only [envStep]
        rw [dictGetS_dictSet, if_neg (fun hh : k = p.1 => hk hh.symm)]

theorem getS_foldl_some (l : List (String × String)) :
    ∀ (m0 : List (String × String)) (k v : String),
      (l.map Prod.fst).Nodup → dictGetS l k = some v →
      dictGetS (l.foldl envStep m0) k = some v := by
  induction l with
  | nil => intro m0 k v _ h; cases h
  | cons p rest ih =>
      intro m0 k v hnd h
      simp only [List.map_cons, List.nodup_cons] at hnd
      rw [dictGetS_cons] at h
      simp only [List.foldl_cons]
      by_cases hk : p.1 = k
      · rw [if_pos hk] at h
        have hv : p.2 = v := Option.some.inj h
        have hrest : dictGetS rest k = none :=
          dictGetS_eq_none_of_not_mem rest k (hk ▸ hnd.1)
        rw [getS_foldl_none rest _ k hrest]
        simp only [envStep]
        rw [dictGetS_dictSet, if_pos hk.symm, hv]
      · rw [if_neg hk] at h
        exact ih _ k v hnd.2 h

theorem mergeEnvStep_snd (i : List (String × String))
    (st : List (String × String) × List String) (p : String × String) :
    (mergeEnvStep i st p).2 = st.2 ++ (envWarnOf i p).toList := by
  simp only [mergeEnvStep, envWarnOf]
  cases dictGetS i p.1 with
  | none => simp
  | some w => by_cases h : w ≠ p.2 <;> simp [h]

theorem merge_env_fold_fst (i : List (String × String)) (u : List (String × String)) :
    ∀ st, (u.foldl (mergeEnvStep i) st).1 = u.foldl envStep st.1 := by
  induction u with
  | nil => intro st; rfl
  | cons p rest ih =>
      intro st
      simp only [List.foldl_cons]
      rw [ih]
      rfl

theorem merge_env_fold_snd (i : List (String × String)) (u : List (String × String)) :
    ∀ st, (u.foldl (mergeEnvStep i) st).2 = st.2 ++ u.filterMap (envWarnOf i) := by
  induction u with
  | nil => intro st; simp
  | cons p rest ih =>
      intro st
      simp only [List.foldl_cons, List.filterMap_cons]
      rw [ih, mergeEnvStep_snd]
      cases envWarnOf i p <;> simp

theorem merge_env_warnings (u i : List (String × String)) :
    (merge_env u i).2 = u.filterMap (envWarnOf i) := by
  rw [merge_env, merge_env_fold_snd]
  rfl

theorem merge_env_get_user (u i : List (String × String)) (k v : String)
    (hu : (u.map Prod.fst).Nodup) (h : dictGetS u k = some v) :
    dictGetS (merge_env u i).1 k = some v := by
  rw [merge_env, merge_env_fold_fst]
  exact getS_foldl_some u _ k v hu h

theorem merge_env_get_imported (u i : List (String × String)) (k : String)
    (hi : (i.map Prod.fst).Nodup) (h : dictGetS u k = none) :
    dictGetS (merge_env u i).1 k = dictGetS i k := by
  rw [merge_env, merge_env_fold_fst, getS_foldl_none u _ k h]
  cases hik : dictGetS i k with
  | none => rw [getS_foldl_none i [] k hik]; rfl
  | some w => rw [getS_foldl_some i [] k w hi hik]

theorem mem_of_dictGetS (d : List (String × String)) (k v : String)
    (h : dictGetS d k = some v) : (k, v) ∈ d := by
  unfold dictGetS at h
  cases hf : d.find? (fun p => p.1 == k) with
  | none => rw [hf] at h; cases h
  | some p =>
      rw [hf] at h
      have hp := List.find?_some hf
      have hmem := List.mem_of_find?_eq_some hf
      simp only [beq_iff_eq] at hp
      have hv : p.2 = v := Option.some.inj h
      have : p = (k, v) := by
        cases p
        simp only at hp hv
        rw [hp, hv]
      rwa [this] at hmem

theorem length_filterMap_eq_length_filter {α β : Type} (f : α → Option β) (l : List α) :
    (l.filterMap f).length = (l.filter (fun a => (f a).isSome)).length := by
  induction l with
  | nil => rfl
  | cons a rest ih =>
      simp only [List.filterMap_cons, List.filter_cons]
      cases f a <;> simp [ih]

theorem countP_add_countP_not {α : Type} (p : α → Bool) (l : List α) :
    l.countP p + l.countP (fun a => !(p a)) = l.length := by
  induction l with
  | nil => rfl
  | cons a rest ih =>
      simp only [List.countP_cons, List.length_cons]
      cases h : p a <;> simp [h] <;> omega

/-! ## Helper lemmas: first-occurrence deduplication -/

theorem mem_pyDedupAux {α : Type} [DecidableEq α] (l : List α) :
    ∀ (seen : List α) (x : α), x ∈ pyDedupAux l seen ↔ x ∈ l ∧ x ∉ seen := by
  induction l with
  | nil => intro seen x; simp [pyDedupAux]
  | cons a rest ih =>
      intro seen x
      rw [pyDedupAux]
      by_cases ha : a ∈ seen
      · rw [if_pos ha, ih]
        simp only [List.mem_cons]
        constructor
        · rintro ⟨hx, hns⟩; exact ⟨Or.inr hx, hns⟩
        · rintro ⟨hx | hx, hns⟩
          · exact absurd (hx ▸ ha) hns
          · exact ⟨hx, hns⟩
      · rw [if_neg ha]
        simp only [List.mem_cons, ih, List.mem_cons, not_or]
        by_cases hxa : x = a
        · subst hxa; simp [ha]
        · simp [hxa]

theorem nodup_pyDedupAux {α : Type} [DecidableEq α] (l : List α) :
    ∀ seen, (pyDedupAux l seen).Nodup := by
  induction l with
  | nil => intro seen; exact List.nodup_nil
  | cons a rest ih =>
      intro seen
      rw [pyDedupAux]
      by_cases ha : a ∈ seen
      · rw [if_pos ha]; exact ih seen
      · rw [if_neg ha]
        refine List.nodup_cons.mpr ⟨?_, ih _⟩
        intro hmem
        rw [mem_pyDedupAux] at hmem
        exact hmem.2 (List.mem_cons_self a seen)

theorem pyDedupAux_eq_firstOccurrences {α : Type} [DecidableEq α] (l : List α) :
    ∀ seen : List α,
      pyDedupAux l seen = firstOccurrences (l.filter (fun x => x ∉ seen)) := by
  induction l with
  | nil => intro seen; simp [pyDedupAux, firstOccurrences]
  | cons a rest ih =>
      intro seen
      rw [pyDedupAux, List.filter_cons]
      by_cases ha : a ∈ seen
      · rw [if_pos ha, if_neg (by simpa using ha), ih]
      · rw [if_neg ha, if_pos (by simpa using ha), firstOccurrences, ih (a :: seen)]
        congr 1
        rw [List.filter_filter]
        refine congrArg firstOccurrences ?_
        apply List.filter_congr
        intro x _
        by_cases h1 : x = a <;> by_cases h2 : x ∈ seen <;>
          simp [h1, h2, List.mem_cons]

theorem pyDedup_eq_firstOccurrences {α : Type} [DecidableEq α] (l : List α) :
    pyDedupAux l [] = firstOccurrences l := by
  rw [pyDedupAux_eq_firstOccurrences]
  congr 1
  exact List.filter_eq_self.mpr (fun a _ => by simp)

theorem mem_firstOccurrences {α : Type} [DecidableEq α] (l : List α) (x : α) :
    x ∈ firstOccurrences l ↔ x ∈ l := by
  rw [← pyDedup_eq_firstOccurrences, mem_pyDedupAux]
  simp

theorem nodup_firstOccurrences {α : Type} [DecidableEq α] (l : List α) :
    (firstOccurrences l).Nodup := by
  rw [← pyDedup_eq_firstOccurrences]
  exact nodup_pyDedupAux l []

/-! ## Helper lemmas: mapper -/

theorem mem_addLang_self (ls : List String) (l : String) : l ∈ addLang ls l := by
  unfold addLang
  by_cases h : l ∈ ls
  · rwa [if_pos h]
  · rw [if_neg h]; simp

theorem mem_addLang_of_mem (ls : List String) (l x : String) (h : x ∈ ls) :
    x ∈ addLang ls l := by
  unfold addLang
  by_cases hl : l ∈ ls
  · rwa [if_pos hl]
  · rw [if_neg hl]; simp [h]

theorem mem_foldl_addLang (ls' : List String) :
    ∀ (ls : List String) (x : String), x ∈ ls → x ∈ ls'.foldl addLang ls := by
  induction ls' with
  | nil => intro ls x h; exact h
  | cons a rest ih =>
      intro ls x h
      exact ih _ x (mem_addLang_of_mem ls a x h)

theorem foldl_featureStep_unrec (fs : List (String × Json)) :
    ∀ r : MappingResult,
      (fs.foldl featureStep r).unrecognized_features =
        r.unrecognized_features ++
          (fs.map Prod.fst).filter (fun f => (matchFeature f).isNone) := by
  induction fs with
  | nil => intro r; simp
  | cons p rest ih =>
      intro r
      simp only [List.foldl_cons, List.map_cons, List.filter_cons]
      cases hm : matchFeature p.1 with
      | some lang => simp [featureStep, hm, ih]
      | none => simp [featureStep, hm, ih]

theorem foldl_featureStep_warnings (fs : List (String × Json)) :
    ∀ r : MappingResult,
      (fs.foldl featureStep r).warnings =
        r.warnings ++
          ((fs.map Prod.fst).filter (fun f => (matchFeature f).isNone)).map
            featureWarning := by
  induction fs with
  | nil => intro r; simp
  | cons p rest ih =>
      intro r
      simp only [List.foldl_cons, List.map_cons, List.filter_cons]
      cases hm : matchFeature p.1 with
      | some lang => simp [featureStep, hm, ih]
      | none => simp [featureStep, hm, ih]

theorem foldl_featureStep_langs_mono (fs : List (String × Json)) :
    ∀ (r : MappingResult) (x : String), x ∈ r.languages →
      x ∈ (fs.foldl featureStep r).languages := by
  induction fs with
  | nil => intro r x h; exact h
  | cons p rest ih =>
      intro r x h
      simp only [List.foldl_cons]
      refine ih _ x ?_
      unfold featureStep
      cases matchFeature p.1 with
      | some lang => exact mem_addLang_of_mem _ _ _ h
      | none => exact h

theorem foldl_featureStep_langs_match (fs : List (String × Json)) :
    ∀ (r : MappingResult) (p : String × Json) (l : String), p ∈ fs →
      matchFeature p.1 = some l → l ∈ (fs.foldl featureStep r).languages := by
  induction fs with
  | nil => intro r p l h; cases h
  | cons q rest ih =>
      intro r p l hmem hmatch
      simp only [List.foldl_cons]
      rcases List.mem_cons.mp hmem with hq | hrest
      · subst hq
        refine foldl_featureStep_langs_mono rest _ l ?_
        unfold featureStep
        rw [hmatch]
        exact mem_addLang_self _ _
      · exact ih _ p l hrest hmatch

theorem foldl_detectStep (ws : List String) :
    ∀ (seen acc : List String),
      (ws.foldl detectStep (seen, acc)).2 =
        acc ++ pyDedupAux (ws.filterMap keywordLookup) seen := by
  induction ws with
  | nil => intro seen acc; simp [pyDedupAux]
  | cons w rest ih =>
      intro seen acc
      simp only [List.foldl_cons, List.filterMap_cons]
      cases hk : keywordLookup w with
      | none => simp only [detectStep, hk]; exact ih seen acc
      | some l =>
          simp only [detectStep, hk]
          by_cases hl : l ∈ seen
          · rw [if_pos hl, ih, pyDedupAux, if_pos hl]
          · rw [if_neg hl, ih, pyDedupAux, if_neg hl]
            simp

/-! ## Claim C2: `mask_value` -/

theorem string_mk_eq_iff (l : List Char) (v : String) :
    (⟨l⟩ : String) = v ↔ l = v.data := by
  cases v
  constructor
  · intro h; injection h
  · intro h; rw [h]

/-- C2, counterexample: the claim asserts `mask_value v` is never equal to
`v`, but the fully-masked string `***` (length 3, so the `len(v) <= 4`
branch applies) is returned unchanged, as is the seven-character
`ab***cd` whose masked form coincides with itself. -/
theorem mask_value_never_equal_cex :
    mask_value "***" = "***" ∧ mask_value "ab***cd" = "ab***cd" := by
  constructor <;> decide

/-- C2 (amended): `mask_value v` returns exactly `***` when
`len(v) <= 4` and `v[:2] + "***" + v[-2:]` when `len(v) > 4`; the result
equals `v` exactly when `v` is already in masked shape (`v = "***"`, or
`len(v) = 7` with `***` as the middle three characters), and in
particular differs from `v` whenever `v` is not of that shape. -/
theorem mask_value_spec (v : String) :
    (v.length ≤ 4 → mask_value v = "***")
    ∧ (4 < v.length →
        mask_value v = ⟨v.data.take 2⟩ ++ "***" ++ ⟨v.data.drop (v.data.length - 2)⟩)
    ∧ (mask_value v = v ↔ maskedShape v) := by
  have hlen : v.length = v.data.length := rfl
  refine ⟨fun h => by rw [mask_value, if_pos h], fun h => by rw [mask_value, if_neg (not_le.mpr h)]; rfl, ?_⟩
  by_cases h4 : v.length ≤ 4
  · rw [mask_value, if_pos h4]
    unfold maskedShape
    constructor
    · intro h; exact Or.inl h.symm
    · rintro (h | ⟨h7, _⟩)
      · exact h.symm
      · omega
  · have h4' : 4 < v.data.length := by rw [← hlen]; omega
    rw [mask_value, if_neg h4, string_mk_eq_iff,
      (by decide : ("***".data : List Char) = ['*', '*', '*'])]
    unfold maskedShape
    constructor
    · intro h
      have hn : v.data.length = 7 := by
        have hl := congrArg List.length h
        simp only [List.length_append, List.length_take, List.length_drop,
          List.length_cons, List.length_nil] at hl
        omega
      have htk : (v.data.take 2).length = 2 := by
        simp only [List.length_take]
        omega
      refine Or.inr ⟨by omega, ?_⟩
      have h5 : v.data.length - 2 = 5 := by omega
      rw [h5] at h
      conv_lhs => rw [← h]
      rw [List.append_assoc, List.drop_append_of_le_length (le_of_eq htk.symm),
        List.drop_eq_nil_of_le (le_of_eq htk), List.nil_append,
        List.take_append_of_le_length (by decide)]
      decide
    · rintro (hstar | ⟨h7, hmid⟩)
      · exfalso
        have hd : v.data = ['*', '*', '*'] := by rw [hstar]
        rw [hd] at h4'
        simp at h4'
      · have h5 : v.data.length - 2 = 5 := by
          have hn7 : v.data.length = 7 := h7
          omega
        rw [h5]
        conv_rhs => rw [← List.take_append_drop 2 v.data]
        rw [List.append_assoc]
        congr 1
        conv_rhs => rw [← List.take_append_drop 3 (v.data.drop 2)]
        rw [hmid, List.drop_drop]

/-! ## Order lemmas for the language sort -/

theorem charListLe_total (as : List Char) :
    ∀ bs, charListLe as bs = true ∨ charListLe bs as = true := by
  induction as with
  | nil => intro bs; left; rfl
  | cons a as ih =>
      intro bs
      cases bs with
      | nil => right; rfl
      | cons b bs =>
          rw [charListLe, charListLe]
          rcases lt_trichotomy a b with h | h | h
          · left; rw [if_pos h]
          · subst h
            rcases ih bs with h2 | h2
            · left; rw [if_neg (lt_irrefl a), if_pos rfl]; exact h2
            · right; rw [if_neg (lt_irrefl a), if_pos rfl]; exact h2
          · right; rw [if_pos h]

theorem charListLe_trans (as : List Char) :
    ∀ bs cs, charListLe as bs = true → charListLe bs cs = true →
      charListLe as cs = true := by
  induction as with
  | nil => intro bs cs _ _; rfl
  | cons a as ih =>
      intro bs cs hab hbc
      cases bs with
      | nil => rw [charListLe] at hab; cases hab
      | cons b bs =>
          cases cs with
          | nil => rw [charListLe] at hbc; cases hbc
          | cons c cs =>
              rw [charListLe] at hab hbc ⊢
              by_cases h1 : a < b
              · by_cases h2 : b < c
                · rw [if_pos (lt_trans h1 h2)]
                · by_cases h3 : b = c
                  · subst h3; rw [if_pos h1]
                  · rw [if_neg h2, if_neg h3] at hbc; cases hbc
              · by_cases h4 : a = b
                · subst h4
                  rw [if_neg h1, if_pos rfl] at hab
                  by_cases h2 : a < c
                  · rw [if_pos h2]
                  · by_cases h3 : a = c
                    · rw [if_neg h2, if_pos h3]
                      subst h3
                      rw [if_neg h2, if_pos rfl] at hbc
                      exact ih bs cs hab hbc
                    · rw [if_neg h2, if_neg h3] at hbc; cases hbc
                · rw [if_neg h1, if_neg h4] at hab; cases hab

/-- C2 witness: the amended statement at concrete inputs — the spec's own
examples `mask_value("ab") = "***"` and
`mask_value("my-secret-token") = "my***en"`, plus a non-masked-shape value
on which the result differs from the input. -/
theorem mask_value_spec_witness :
    mask_value "ab" = "***" ∧
    mask_value "my-secret-token" = "my***en" ∧
    mask_value "hello" ≠ "hello" := by
  refine ⟨(mask_value_spec "ab").1 (by decide), ?_, ?_⟩
  · have h := (mask_value_spec "my-secret-token").2.1 (by decide)
    rw [h]; decide
  · intro hh
    have h := (mask_value_spec "hello").2.2.mp hh
    revert h
    decide

/-! ## Claim C1: env-var merging -/

theorem merge_config_env_vars_def (u i : MergeInput) :
    (merge_config u i).env_vars = (merge_env u.env_vars i.env_vars).1 := rfl

theorem merge_config_warnings_def (u i : MergeInput) :
    (merge_config u i).warnings = (merge_env u.env_vars i.env_vars).2 := rfl

/-- C1: for every pair of configurations (with dict inputs, whose keys are
unique), user env values always win; keys in only one input keep that
input's value; the merged key set is the union of the two key sets; the
warnings are exactly one per user entry whose key the imported dict binds
to a different value (`envWarnOf`), each quoting the key and both values
(`envConflictWarning`); identical shared values produce no warning. -/
theorem merge_config_env_spec (user imported : MergeInput)
    (hu : (user.env_vars.map Prod.fst).Nodup)
    (hi : (imported.env_vars.map Prod.fst).Nodup) :
    (∀ k v, dictGetS user.env_vars k = some v →
        dictGetS (merge_config user imported).env_vars k = some v)
    ∧ (∀ k, dictGetS user.env_vars k = none →
        dictGetS (merge_config user imported).env_vars k = dictGetS imported.env_vars k)
    ∧ (∀ k, dictGetS (merge_config user imported).env_vars k = none ↔
        (dictGetS user.env_vars k = none ∧ dictGetS imported.env_vars k = none))
    ∧ (merge_config user imported).warnings =
        user.env_vars.filterMap (envWarnOf imported.env_vars)
    ∧ (∀ k v w, dictGetS user.env_vars k = some v →
        dictGetS imported.env_vars k = some w → v ≠ w →
        envConflictWarning k v w ∈ (merge_config user imported).warnings)
    ∧ (merge_config user imported).warnings.length =
        (user.env_vars.filter (fun kv => (envWarnOf imported.env_vars kv).isSome)).length := by
  have hwar : (merge_config user imported).warnings =
      user.env_vars.filterMap (envWarnOf imported.env_vars) := by
    rw [merge_config_warnings_def, merge_env_warnings]
  refine ⟨?_, ?_, ?_, hwar, ?_, ?_⟩
  · intro k v h
    rw [merge_config_env_vars_def]
    exact merge_env_get_user _ _ _ _ hu h
  · intro k h
    rw [merge_config_env_vars_def]
    exact merge_env_get_imported _ _ _ hi h
  · intro k
    rw [merge_config_env_vars_def]
    cases huk : dictGetS user.env_vars k with
    | some v =>
        rw [merge_env_get_user _ _ _ _ hu huk]
        simp
    | none =>
        rw [merge_env_get_imported _ _ _ hi huk]
        simp
  · intro k v w hk hw hne
    rw [hwar]
    refine List.mem_filterMap.mpr ⟨(k, v), mem_of_dictGetS _ _ _ hk, ?_⟩
    simp only [envWarnOf, hw]
    rw [if_pos (fun hh : w = v => hne hh.symm)]
  · rw [hwar]
    exact length_filterMap_eq_length_filter _ _

/-- C1 witness: the spec's concrete scenario 4, extended with a key on
each side and a shared identical value; exactly the one conflict warning
is produced. -/
theorem merge_config_env_spec_witness :
    dictGetS (merge_config c1User c1Imported).env_vars "SHARED" = some "user_val"
    ∧ dictGetS (merge_config c1User c1Imported).env_vars "ONLY_I" = some "2"
    ∧ envConflictWarning "SHARED" "user_val" "imported_val" ∈
        (merge_config c1User c1Imported).warnings
    ∧ (merge_config c1User c1Imported).warnings.length = 1 := by
  have h := merge_config_env_spec c1User c1Imported (by decide) (by decide)
  refine ⟨h.1 "SHARED" "user_val" (by decide), ?_, ?_, ?_⟩
  · rw [h.2.1 "ONLY_I" (by decide)]
    decide
  · exact h.2.2.2.2.1 "SHARED" "user_val" "imported_val" (by decide) (by decide)
      (by decide)
  · rw [h.2.2.2.2.2]
    decide

/-! ## Claim C7: merged languages and ports -/

theorem merge_config_languages_def (u i : MergeInput) :
    (merge_config u i).languages = merge_languages u.languages i.languages := rfl

theorem merge_config_ports_def (u i : MergeInput) :
    (merge_config u i).ports = merge_ports u.ports i.ports := rfl

/-- C7: the merged languages are sorted ascending (lexicographically),
duplicate-free, and contain exactly the languages of either input; the
merged ports are the first occurrences of the user ports followed by the
imported ports, in first-seen order (`firstOccurrences`), hence
duplicate-free and containing every port of either input. -/
theorem merge_config_languages_ports_spec (user imported : MergeInput) :
    List.Sorted pyLe (merge_config user imported).languages
    ∧ (merge_config user imported).languages.Nodup
    ∧ (∀ s, s ∈ (merge_config user imported).languages ↔
        s ∈ user.languages ∨ s ∈ imported.languages)
    ∧ (merge_config user imported).ports =
        firstOccurrences (user.ports ++ imported.ports)
    ∧ (∀ p : Int, p ∈ (merge_config user imported).ports ↔
        p ∈ user.ports ∨ p ∈ imported.ports)
    ∧ (merge_config user imported).ports.Nodup := by
  haveI : IsTotal String pyLe := ⟨fun a b => charListLe_total a.data b.data⟩
  haveI : IsTrans String pyLe := ⟨fun a b c => charListLe_trans a.data b.data c.data⟩
  rw [merge_config_languages_def, merge_config_ports_def]
  unfold merge_languages merge_ports
  refine ⟨List.sorted_insertionSort pyLe _, ?_, ?_, ?_, ?_, ?_⟩
  · exact (List.perm_insertionSort pyLe _).nodup_iff.mpr (nodup_pyDedupAux _ _)
  · intro s
    rw [(List.perm_insertionSort pyLe _).mem_iff, mem_pyDedupAux]
    simp [List.mem_append]
  · exact pyDedup_eq_firstOccurrences _
  · intro p
    rw [mem_pyDedupAux]
    simp [List.mem_append]
  · exact nodup_pyDedupAux _ _

/-! ## Claim C10: merging against an empty imported configuration -/

theorem dictSet_append_of_not_mem (d : List (String × String)) (k v : String)
    (h : k ∉ d.map Prod.fst) : dictSet d k v = d ++ [(k, v)] := by
  induction d with
  | nil => rfl
  | cons p rest ih =>
      simp only [List.map_cons, List.mem_cons, not_or] at h
      rw [dictSet, if_neg (fun hh : p.1 = k => h.1 hh.symm), ih h.2]
      rfl

theorem foldl_envStep_self (l : List (String × String)) :
    ∀ acc, (∀ kv ∈ l, kv.1 ∉ acc.map Prod.fst) → (l.map Prod.fst).Nodup →
      l.foldl envStep acc = acc ++ l := by
  induction l with
  | nil => intro acc _ _; simp
  | cons p rest ih =>
      intro acc hdisj hnd
      simp only [List.map_cons, List.nodup_cons] at hnd
      simp only [List.foldl_cons]
      have hp : p.1 ∉ acc.map Prod.fst := hdisj p (List.mem_cons_self _ _)
      have hstep : envStep acc p = acc ++ [p] := by
        rw [envStep, dictSet_append_of_not_mem _ _ _ hp]
      rw [hstep, ih (acc ++ [p]) ?_ hnd.2, List.append_assoc]
      · rfl
      · intro kv hkv
        simp only [List.map_append, List.mem_append, not_or]
        refine ⟨hdisj kv (List.mem_cons_of_mem _ hkv), ?_⟩
        simp only [List.map_cons, List.map_nil, List.mem_singleton]
        intro hh
        exact hnd.1 (hh ▸ List.mem_map_of_mem Prod.fst hkv)

/-- C10: merging a user configuration with an empty imported configuration
produces no warnings, keeps the user env vars unchanged, sorts and
deduplicates the user languages, and removes every occurrence after the
first from the user ports — a merge against nothing only normalizes. -/
theorem merge_config_empty_imported (user : MergeInput)
    (hu : (user.env_vars.map Prod.fst).Nodup) :
    (merge_config user {}).warnings = []
    ∧ (merge_config user {}).env_vars = user.env_vars
    ∧ (merge_config user {}).languages =
        List.insertionSort pyLe (firstOccurrences user.languages)
    ∧ (merge_config user {}).ports = firstOccurrences user.ports := by
  refine ⟨?_, ?_, ?_, ?_⟩
  · rw [merge_config_warnings_def, merge_env_warnings]
    exact List.filterMap_eq_nil_iff.mpr (fun kv _ => rfl)
  · rw [merge_config_env_vars_def, merge_env, merge_env_fold_fst]
    have h := foldl_envStep_self user.env_vars [] (by simp) hu
    simpa using h
  · rw [merge_config_languages_def]
    show merge_languages user.languages [] = _
    unfold merge_languages
    rw [List.append_nil, pyDedup_eq_firstOccurrences]
  · rw [merge_config_ports_def]
    show merge_ports user.ports [] = _
    unfold merge_ports
    rw [List.append_nil, pyDedup_eq_firstOccurrences]

/-- C10 witness: the theorem evaluated on `c10User` against the empty
imported configuration. -/
theorem merge_config_empty_imported_witness :
    (merge_config c10User {}).warnings = []
    ∧ (merge_config c10User {}).env_vars = [("A", "1"), ("B", "2")]
    ∧ (merge_config c10User {}).languages = ["go", "python"]
    ∧ (merge_config c10User {}).ports = [8080, 3000] := by
  have h := merge_config_empty_imported c10User (by decide)
  refine ⟨h.1, by rw [h.2.1]; rfl, ?_, ?_⟩
  · rw [h.2.2.1, ← pyDedup_eq_firstOccurrences]
    decide
  · rw [h.2.2.2, ← pyDedup_eq_firstOccurrences]
    decide

/-! ## Claim C3: pass-through of other top-level keys -/

theorem find?_filter_of_imp {α : Type} (l : List α) (p q : α → Bool)
    (h : ∀ a, p a = true → q a = true) :
    (l.filter q).find? p = l.find? p := by
  induction l with
  | nil => rfl
  | cons a rest ih =>
      rw [List.filter_cons]
      by_cases hq : q a = true
      · rw [if_pos hq]
        by_cases hp : p a = true
        · rw [List.find?_cons_of_pos _ hp, List.find?_cons_of_pos _ hp]
        · rw [List.find?_cons_of_neg _ hp, List.find?_cons_of_neg _ hp, ih]
      · have hp : ¬ p a = true := fun hpa => hq (h a hpa)
        rw [if_neg hq, List.find?_cons_of_neg _ hp, ih]

/-- C3, counterexample: the claim says every top-level key other than
`env_vars`/`languages`/`ports` is carried through with its input value,
whatever its name — but a user key named `warnings` is overwritten by the
merger's computed warnings list (`merged['warnings'] = warnings` runs
last), so its value `"x"` is lost and the empty warnings list is returned
instead. -/
theorem merge_config_passthrough_cex :
    (merge_config c3User {}).getKey "warnings" = some (Json.arr [])
    ∧ Json.arr [] ≠ Json.str "x" :=
  ⟨rfl, fun h => Json.noConfusion h⟩

/-- C3 (amended): every top-level key of either input other than
`env_vars`, `languages`, `ports` — and other than `warnings`, which the
merger always rebinds to its computed warnings list — appears in the
output with its input value carried through unchanged, the user's value
winning when both inputs bind the key. -/
theorem merge_config_passthrough_amended (user imported : MergeInput) (k : String)
    (hk : ¬ k ∈ handledKeys) (hw : k ≠ "warnings") :
    (∀ v, (user.extra.find? (fun p => p.1 == k)).map (fun p => p.2) = some v →
        (merge_config user imported).getKey k = some v)
    ∧ (user.extra.find? (fun p => p.1 == k) = none →
        (merge_config user imported).getKey k =
          (imported.extra.find? (fun p => p.1 == k)).map (fun p => p.2)) := by
  have hk' := hk
  simp only [handledKeys, List.mem_cons, List.not_mem_nil, or_false, not_or] at hk'
  obtain ⟨h1, h2, h3⟩ := hk'
  have hgetKey : (merge_config user imported).getKey k =
      (((merge_config user imported).extra).find? (fun p => p.1 == k)).map
        (fun p => p.2) := by
    rw [MergedOut.getKey, if_neg hw, if_neg h1, if_neg h2, if_neg h3]
  have hextra : (merge_config user imported).extra =
      user.extra.filter (fun p => !(handledKeys.contains p.1)) ++
        imported.extra.filter (fun p => !(handledKeys.contains p.1) &&
          !((user.extra.filter (fun q => !(handledKeys.contains q.1))).any
            (fun q => q.1 == p.1))) := rfl
  have hcont : handledKeys.contains k = false := by
    simp [handledKeys, h1, h2, h3]
  have huserfilter :
      (user.extra.filter (fun p => !(handledKeys.contains p.1))).find?
        (fun p => p.1 == k) = user.extra.find? (fun p => p.1 == k) :=
    find?_filter_of_imp _ _ _ (fun a ha => by
      have hak : a.1 = k := by simpa using ha
      rw [hak, hcont]
      rfl)
  constructor
  · intro v hv
    rw [hgetKey, hextra, List.find?_append, huserfilter]
    cases hf : user.extra.find? (fun p => p.1 == k) with
    | none => rw [hf] at hv; cases hv
    | some p =>
        rw [hf] at hv
        simpa using hv
  · intro hnone
    have himpfilter :
        (imported.extra.filter (fun p => !(handledKeys.contains p.1) &&
          !((user.extra.filter (fun q => !(handledKeys.contains q.1))).any
            (fun q => q.1 == p.1)))).find? (fun p => p.1 == k) =
          imported.extra.find? (fun p => p.1 == k) :=
      find?_filter_of_imp _ _ _ (fun a ha => by
        have hak : a.1 = k := by simpa using ha
        have hany : (user.extra.filter (fun q => !(handledKeys.contains q.1))).any
            (fun q => q.1 == k) = false := by
          rw [List.any_eq_false]
          intro x hx
          exact List.find?_eq_none.mp hnone x (List.mem_of_mem_filter hx)
        rw [hak, hcont, hany]
        rfl)
    rw [hgetKey, hextra, List.find?_append, huserfilter, hnone, himpfilter]
    rfl

/-- C3 witness: the amended pass-through rule evaluated at the keys
`name` (bound on both sides, user wins) and `zz` (imported only). -/
theorem merge_config_passthrough_amended_witness :
    (merge_config c3User2 c3Imported2).getKey "name" = some (Json.str "proj")
    ∧ (merge_config c3User2 c3Imported2).getKey "zz" = some (Json.num 1) := by
  have h1 := merge_config_passthrough_amended c3User2 c3Imported2 "name"
    (by decide) (by decide)
  have h2 := merge_config_passthrough_amended c3User2 c3Imported2 "zz"
    (by decide) (by decide)
  exact ⟨h1.1 (Json.str "proj") rfl, (h2.2 rfl).trans rfl⟩

/-! ## Claim C5: feature mapping totality -/

theorem map_features_unrec_def (config : DevcontainerConfig) :
    (map_features config).unrecognized_features =
      (config.features.foldl featureStep {}).unrecognized_features := by
  rw [map_features]
  cases config.image with
  | none => rfl
  | some img => by_cases h : img = "" <;> simp [h]

theorem map_features_warnings_def (config : DevcontainerConfig) :
    (map_features config).warnings =
      (config.features.foldl featureStep {}).warnings := by
  rw [map_features]
  cases config.image with
  | none => rfl
  | some img => by_cases h : img = "" <;> simp [h]

theorem map_features_langs_mono (config : DevcontainerConfig) (x : String)
    (h : x ∈ (config.features.foldl featureStep {}).languages) :
    x ∈ (map_features config).languages := by
  rw [map_features]
  cases config.image with
  | none => exact h
  | some img =>
      by_cases he : img = ""
      · simpa [he] using h
      · simp only [he, if_neg]
        simpa using mem_foldl_addLang _ _ _ h

/-- C5: every feature id of the input is accounted for exactly once —
the ones with no matching prefix are collected (in encounter order) in
`unrecognized_features` with exactly one parallel warning each, the ones
with a match contribute their first matching language (in table order,
via `matchFeature`) to the language set, and the matched and unmatched
counts sum to the number of input features. -/
theorem map_features_totality (config : DevcontainerConfig) :
    (map_features config).unrecognized_features =
      (config.features.map Prod.fst).filter (fun f => (matchFeature f).isNone)
    ∧ (map_features config).warnings =
        (map_features config).unrecognized_features.map featureWarning
    ∧ (∀ p ∈ config.features, ∀ l, matchFeature p.1 = some l →
        l ∈ (map_features config).languages)
    ∧ (config.features.map Prod.fst).countP (fun f => (matchFeature f).isSome) +
        (map_features config).unrecognized_features.length =
      config.features.length := by
  have hunrec : (map_features config).unrecognized_features =
      (config.features.map Prod.fst).filter (fun f => (matchFeature f).isNone) := by
    rw [map_features_unrec_def, foldl_featureStep_unrec]
    rfl
  refine ⟨hunrec, ?_, ?_, ?_⟩
  · rw [map_features_warnings_def, foldl_featureStep_warnings, hunrec]
    rfl
  · intro p hp l hm
    exact map_features_langs_mono config l
      (foldl_featureStep_langs_match _ _ p l hp hm)
  · rw [hunrec]
    have hswap : (config.features.map Prod.fst).filter
        (fun f => (matchFeature f).isNone) =
        (config.features.map Prod.fst).filter
          (fun f => !(matchFeature f).isSome) := by
      apply List.filter_congr
      intro f _
      cases matchFeature f <;> rfl
    rw [hswap, ← List.countP_eq_length_filter]
    have hlen : (config.features.map Prod.fst).length = config.features.length :=
      List.length_map _ _
    rw [← hlen]
    exact countP_add_countP_not _ _

/-- C5 witness: the totality statement evaluated on `c5Config`. -/
theorem map_features_totality_witness :
    (map_features c5Config).unrecognized_features =
      ["ghcr.io/devcontainers/features/docker-in-docker:2"]
    ∧ (map_features c5Config).warnings =
        [featureWarning "ghcr.io/devcontainers/features/docker-in-docker:2"]
    ∧ "python" ∈ (map_features c5Config).languages
    ∧ (c5Config.features.map Prod.fst).countP (fun f => (matchFeature f).isSome) +
        (map_features c5Config).unrecognized_features.length = 3 := by
  have h := map_features_totality c5Config
  refine ⟨?_, ?_, ?_, ?_⟩
  · rw [h.1]; decide
  · rw [h.2.1, h.1]; decide
  · exact h.2.2.1 ("ghcr.io/devcontainers/features/python:1", Json.obj [])
      (List.mem_cons_self _ _) "python" (by decide)
  · exact h.2.2.2.trans (by decide)

/-! ## Claim C6: base-image language detection -/

/-- C6: empty or whitespace-only images detect nothing; otherwise the
result is the keyword hits of the normalized image words (lowercased,
digest then tag split off, split on `/` and on `-`/`_`), deduplicated in
first-seen order; `golang` and `go` both map to `go`; in particular
`golang:1.21` detects exactly `go`. -/
theorem detect_language_from_image_spec :
    (∀ img, pyStrip img = "" → detect_language_from_image img = [])
    ∧ detect_language_from_image "golang:1.21" = ["go"]
    ∧ keywordLookup "golang" = some "go"
    ∧ keywordLookup "go" = some "go"
    ∧ (∀ img, detect_language_from_image img =
        if pyStrip img = "" then []
        else firstOccurrences ((imageWords img).filterMap keywordLookup))
    ∧ (∀ img, (detect_language_from_image img).Nodup)
    ∧ (∀ img l, l ∈ detect_language_from_image img ↔
        ¬ pyStrip img = "" ∧ l ∈ (imageWords img).filterMap keywordLookup) := by
  have hchar : ∀ img, detect_language_from_image img =
      if pyStrip img = "" then []
      else firstOccurrences ((imageWords img).filterMap keywordLookup) := by
    intro img
    by_cases h : pyStrip img = ""
    · rw [detect_language_from_image, if_pos h, if_pos h]
    · rw [detect_language_from_image, if_neg h, if_neg h, foldl_detectStep,
        List.nil_append, pyDedup_eq_firstOccurrences]
  refine ⟨?_, by decide, by decide, by decide, hchar, ?_, ?_⟩
  · intro img h
    rw [detect_language_from_image, if_pos h]
  · intro img
    by_cases h : pyStrip img = ""
    · rw [hchar, if_pos h]; exact List.nodup_nil
    · rw [hchar, if_neg h, ← pyDedup_eq_firstOccurrences]
      exact nodup_pyDedupAux _ _
  · intro img l
    by_cases h : pyStrip img = ""
    · rw [hchar, if_pos h]
      simp [h]
    · rw [hchar, if_neg h, mem_firstOccurrences]
      simp [h]

/-- C6 witness: the statement's implications evaluated at concrete
images — a whitespace-only image, the spec's `golang:1.21` example, and a
registry-qualified image. -/
theorem detect_language_from_image_spec_witness :
    detect_language_from_image "   " = []
    ∧ detect_language_from_image "golang:1.21" = ["go"]
    ∧ detect_language_from_image "mcr.microsoft.com/devcontainers/python:3.11" =
        ["python"] := by
  have h := detect_language_from_image_spec
  refine ⟨h.1 "   " (by decide), h.2.1, ?_⟩
  rw [h.2.2.2.2.1 "mcr.microsoft.com/devcontainers/python:3.11",
    ← pyDedup_eq_firstOccurrences]
  decide

/-! ## Claim C8: parse_content failure normalization -/

/-- C8: `parse_content` is a total function into `ParseResult` (it never
raises): a JSON decode error yields a failure whose single error string
says `Invalid JSON syntax` with the 1-based line and column and the
underlying message; a decoded non-object root yields the
`root must be an object` failure; a success always carries a config and an
empty error list; a failure never carries a config and always carries at
least one error. -/
theorem parse_content_result_spec :
    (∀ e : JsonDecodeErr, parse_content (.error e) =
        { success := false, config := none,
          errors := ["Invalid JSON syntax at line " ++ toString e.lineno ++
            ", column " ++ toString e.colno ++ ": " ++ e.msg] })
    ∧ (∀ j : Json, (∀ o, j ≠ Json.obj o) → parse_content (.ok j) =
        { success := false, config := none,
          errors := ["Invalid devcontainer.json: root must be an object"] })
    ∧ (∀ d, (parse_content d).success = true →
        (parse_content d).config.isSome ∧ (parse_content d).errors = [])
    ∧ (∀ d, (parse_content d).success = false →
        (parse_content d).config = none ∧ (parse_content d).errors ≠ []) := by
  refine ⟨fun e => rfl, ?_, ?_, ?_⟩
  · intro j hj
    cases j with
    | obj o => exact absurd rfl (hj o)
    | null => rfl
    | bool b => rfl
    | num n => rfl
    | fnum lit => rfl
    | str s => rfl
    | arr elems => rfl
  · intro d hd
    cases d with
    | error e => cases hd
    | ok j =>
        cases j with
        | obj data =>
            cases he : (basic_validation data).isEmpty with
            | true => refine ⟨?_, ?_⟩ <;> · rw [parse_content]; simp [he]
            | false =>
                rw [parse_content] at hd
                simp [he] at hd
        | null => cases hd
        | bool b => cases hd
        | num n => cases hd
        | fnum lit => cases hd
        | str s => cases hd
        | arr elems => cases hd
  · intro d hd
    cases d with
    | error e => exact ⟨rfl, by simp [parse_content]⟩
    | ok j =>
        cases j with
        | obj data =>
            cases he : (basic_validation data).isEmpty with
            | true =>
                rw [parse_content] at hd
                simp [he] at hd
            | false =>
                refine ⟨?_, ?_⟩
                · rw [parse_content]; simp [he]
                · rw [parse_content]
                  simp only [he]
                  simp only [Bool.false_eq_true, if_false, ne_eq]
                  intro hnil
                  rw [hnil] at he
                  cases he
        | null => exact ⟨rfl, by simp [parse_content]⟩
        | bool b => exact ⟨rfl, by simp [parse_content]⟩
        | num n => exact ⟨rfl, by simp [parse_content]⟩
        | fnum lit => exact ⟨rfl, by simp [parse_content]⟩
        | str s => exact ⟨rfl, by simp [parse_content]⟩
        | arr elems => exact ⟨rfl, by simp [parse_content]⟩

/-- C8 witness: the statement at concrete decode outcomes — the spec's
truncated-JSON scenario (Python reports line 1, column 17 for
`'{"image": "test"'`), a non-object root, and a well-formed object. -/
theorem parse_content_result_spec_witness :
    (parse_content (.error ⟨"Expecting value", 1, 17⟩)).errors =
      ["Invalid JSON syntax at line 1, column 17: Expecting value"]
    ∧ (parse_content (.ok (Json.str "test"))).errors =
      ["Invalid devcontainer.json: root must be an object"]
    ∧ (parse_content (.ok (Json.obj [("image", Json.str "test")]))).config.isSome := by
  have h := parse_content_result_spec
  refine ⟨?_, ?_, ?_⟩
  · rw [h.1 ⟨"Expecting value", 1, 17⟩]
    decide
  · rw [h.2.1 (Json.str "test") (fun o hh => Json.noConfusion hh)]
  · exact (h.2.2.1 (.ok (Json.obj [("image", Json.str "test")])) rfl).1

/-! ## Claim C9: port extraction -/

/-- C9, counterexample: the claim says every entry that is neither an
integer nor a convertible string is silently skipped, but a JSON boolean
entry survives extraction: Python's `bool` is a subclass of `int`, so
`isinstance(True, int)` holds and `true` is kept (with value 1) instead
of being skipped. -/
theorem extract_ports_bool_cex :
    extract_ports [Json.bool true] = [1] ∧ [(1 : Int)] ≠ [] :=
  ⟨rfl, by decide⟩

/-- C9 (amended): port extraction keeps each integer entry, converts each
string entry via Python `int(...)` when the conversion succeeds, keeps
boolean entries as `1`/`0` (Python booleans are integers), and silently
skips every other entry — strings that fail conversion, `null`, floats,
arrays and objects — while preserving the input order of the surviving
entries. -/
theorem extract_ports_spec (xs ys : List Json) :
    (∀ n : Int, extract_ports (xs ++ Json.num n :: ys) =
        extract_ports xs ++ n :: extract_ports ys)
    ∧ (∀ s n, pyIntOfString s = some n →
        extract_ports (xs ++ Json.str s :: ys) =
          extract_ports xs ++ n :: extract_ports ys)
    ∧ (∀ s, pyIntOfString s = none →
        extract_ports (xs ++ Json.str s :: ys) = extract_ports xs ++ extract_ports ys)
    ∧ extract_ports (xs ++ Json.null :: ys) = extract_ports xs ++ extract_ports ys
    ∧ (∀ lit, extract_ports (xs ++ Json.fnum lit :: ys) =
        extract_ports xs ++ extract_ports ys)
    ∧ (∀ elems, extract_ports (xs ++ Json.arr elems :: ys) =
        extract_ports xs ++ extract_ports ys)
    ∧ (∀ fields, extract_ports (xs ++ Json.obj fields :: ys) =
        extract_ports xs ++ extract_ports ys)
    ∧ (∀ b, extract_ports (xs ++ Json.bool b :: ys) =
        extract_ports xs ++ (if b then (1 : Int) else 0) :: extract_ports ys) := by
  refine ⟨?_, ?_, ?_, ?_, ?_, ?_, ?_, ?_⟩
  · intro n
    simp [extract_ports, List.filterMap_append, List.filterMap_cons, portOfEntry]
  · intro s n h
    simp [extract_ports, List.filterMap_append, List.filterMap_cons, portOfEntry, h]
  · intro s h
    simp [extract_ports, List.filterMap_append, List.filterMap_cons, portOfEntry, h]
  · simp [extract_ports, List.filterMap_append, List.filterMap_cons, portOfEntry]
  · intro lit
    simp [extract_ports, List.filterMap_append, List.filterMap_cons, portOfEntry]
  · intro elems
    simp [extract_ports, List.filterMap_append, List.filterMap_cons, portOfEntry]
  · intro fields
    simp [extract_ports, List.filterMap_append, List.filterMap_cons, portOfEntry]
  · intro b
    simp [extract_ports, List.filterMap_append, List.filterMap_cons, portOfEntry]

/-- C9 witness: the amended statement instantiated on the spec's mixed
scenario `[3000, "8080", "invalid", null]` extended with a boolean. -/
theorem extract_ports_spec_witness :
    extract_ports [Json.num 3000, Json.str "8080", Json.str "invalid", Json.null,
      Json.bool true] = [3000, 8080, 1] := by
  have h := (extract_ports_spec [Json.num 3000]
    [Json.str "invalid", Json.null, Json.bool true]).2.1 "8080" 8080 (by decide)
  exact h.trans (by decide)

/-! ## Claim C4: one error per schema violation -/

/-- C4, counterexample: when the optional `jsonschema` library is
importable, `validate_schema` calls `jsonschema.validate`, which raises on
the first violation only, and the single `except` clause appends exactly
one error string — so a mapping violating two properties at once yields a
one-element error list naming only the first offending property, not one
error string per violation (and the second property is never named). -/
theorem parse_content_js_single_error_cex :
    jget c4Bad "features" = some (Json.num 1)
    ∧ jget c4Bad "forwardPorts" = some (Json.num 2)
    ∧ (parse_content_js (.ok (.obj c4Bad))).success = false
    ∧ (parse_content_js (.ok (.obj c4Bad))).errors =
        ["Schema validation failed at 'features': value has the wrong type"]
    ∧ (parse_content_js (.ok (.obj c4Bad))).errors.length = 1 :=
  ⟨rfl, rfl, rfl, rfl, rfl⟩

/-- C4 (amended): in the fallback branch (no `jsonschema` library),
`parse_content` returns a `Failure` carrying one error string per violated
check among the six checked properties, each naming the property and the
expected shape; with the library present, only the first violation is
reported in a single error string.  This theorem settles the fallback
branch: each of the six messages occurs exactly when its check is
violated, the error count equals the number of violated checks, and a
non-empty validation result is returned verbatim as the `Failure`'s error
list. -/
theorem basic_validation_spec (data : List (String × Json)) :
    (("Property 'features' must be an object" ∈ basic_validation data) ↔
        violatesObjProp data "features" = true)
    ∧ (("Property 'customizations' must be an object" ∈ basic_validation data) ↔
        violatesObjProp data "customizations" = true)
    ∧ (("Property 'forwardPorts' must be an array" ∈ basic_validation data) ↔
        violatesArrProp data "forwardPorts" = true)
    ∧ (("Property 'remoteEnv' must be an object" ∈ basic_validation data) ↔
        violatesObjProp data "remoteEnv" = true)
    ∧ (("Property 'image' must be a string" ∈ basic_validation data) ↔
        violatesStrProp data "image" = true)
    ∧ (("Property 'dockerfile' must be a string" ∈ basic_validation data) ↔
        violatesStrProp data "dockerfile" = true)
    ∧ (basic_validation data).length =
        [violatesObjProp data "features", violatesObjProp data "customizations",
         violatesArrProp data "forwardPorts", violatesObjProp data "remoteEnv",
         violatesStrProp data "image", violatesStrProp data "dockerfile"].countP id
    ∧ (basic_validation data ≠ [] →
        parse_content (.ok (.obj data)) =
          { success := false, config := none, errors := basic_validation data }) := by
  have hwire : basic_validation data ≠ [] →
      parse_content (.ok (.obj data)) =
        { success := false, config := none, errors := basic_validation data } := by
    intro h
    rw [parse_content]
    cases he : (basic_validation data).isEmpty with
    | true => exact absurd (List.isEmpty_iff.mp he) h
    | false => simp [he]
  refine ⟨?_, ?_, ?_, ?_, ?_, ?_, ?_, hwire⟩ <;>
    · unfold basic_validation
      cases hF : violatesObjProp data "features" <;>
      cases hC : violatesObjProp data "customizations" <;>
      cases hP : violatesArrProp data "forwardPorts" <;>
      cases hR : violatesObjProp data "remoteEnv" <;>
      cases hI : violatesStrProp data "image" <;>
      cases hD : violatesStrProp data "dockerfile" <;>
      decide

/-- C4 witness: the amended statement evaluated on the two-violation
mapping `c4Bad` — both messages are present, the error count is two, and
`parse_content` returns them as the `Failure`'s error list. -/
theorem basic_validation_spec_witness :
    "Property 'features' must be an object" ∈ basic_validation c4Bad
    ∧ "Property 'forwardPorts' must be an array" ∈ basic_validation c4Bad
    ∧ (basic_validation c4Bad).length = 2
    ∧ (parse_content (.ok (.obj c4Bad))).errors = basic_validation c4Bad := by
  have h := basic_validation_spec c4Bad
  refine ⟨h.1.mpr (by decide), h.2.2.1.mpr (by decide), ?_, ?_⟩
  · rw [h.2.2.2.2.2.2.1]
    decide
  · exact congrArg ParseResult.errors (h.2.2.2.2.2.2.2 (by decide))

end ForgeKeeper
